import Mathlib

set_option maxHeartbeats 1000000

/-!
Shallow embedding of the backroll host of `fishgame-macroquad-backroll`
(`src/client/src/main.rs`: `Game::run_commands`, `Game::update`, the `consts`
module, and the save/load `State` types) and of the `PlayerStateBits` bitfield
of `src/src/main.rs`.  The collision solver (`macroquad_platformer::World`) is
an external collaborator consumed as an opaque deterministic stepping function;
it is embedded as a record of pure functions (`Physics`) together with the
per-actor position store that the host reads and writes through it.  `f32`
values are carried as exact fractions (integer numerator over natural
denominator, never normalized): the claims under study concern determinism,
ordering and state restoration, not floating-point rounding, and the
simulation only ever adds, multiplies, negates and compares its numbers, so
an exact unnormalized carrier is faithful and keeps every concrete state
computation kernel-decidable.
-/

namespace Fish

/-- Exact numeric carrier standing in for `f32`: a fraction `n / d`.  The
simulation constructs values only from integer-valued literals, `1/60` and
`0.7`, and combines them with `+`, `*`, unary `-` and order comparisons, so
no normalization (and no division) is ever required.  Equality of states in
the theorems below is equality of these representations, which is finer than
numeric equality and therefore a sound notion of "identical state". -/
structure Frac where
  n : Int
  d : Nat
deriving DecidableEq

instance : OfNat Frac k := ⟨⟨k, 1⟩⟩

instance : Add Frac := ⟨fun a b => ⟨a.n * b.d + b.n * a.d, a.d * b.d⟩⟩

instance : Mul Frac := ⟨fun a b => ⟨a.n * b.n, a.d * b.d⟩⟩

instance : Neg Frac := ⟨fun a => ⟨-a.n, a.d⟩⟩

instance : LT Frac := ⟨fun a b => a.n * b.d < b.n * a.d⟩

instance : LE Frac := ⟨fun a b => a.n * b.d ≤ b.n * a.d⟩

instance (a b : Frac) : Decidable (a < b) := Int.decLt _ _

instance (a b : Frac) : Decidable (a ≤ b) := Int.decLe _ _

/-- 2D vector (macroquad `Vec2`), with exact coordinates. -/
structure Vec2 where
  x : Frac
  y : Frac
deriving DecidableEq

instance : Add Vec2 := ⟨fun a b => ⟨a.x + b.x, a.y + b.y⟩⟩

/-- `v * k` for a vector and an `f32` scalar. -/
def Vec2.scale (a : Vec2) (k : Frac) : Vec2 := ⟨a.x * k, a.y * k⟩

theorem Vec2.add_def (a b : Vec2) : a + b = ⟨a.x + b.x, a.y + b.y⟩ := rfl

/-- `consts::TIMESTEP = 1.0 / 60.0` (client). -/
def TIMESTEP : Frac := ⟨1, 60⟩

/-- `consts::GRAVITY = 900.0`. -/
def GRAVITY : Frac := 900

/-- `consts::JUMP_SPEED = 250.0`. -/
def JUMP_SPEED : Frac := 250

/-- `consts::RUN_SPEED = 150.0`. -/
def RUN_SPEED : Frac := 150

/-- `consts::BULLET_SPEED = 300.0`. -/
def BULLET_SPEED : Frac := 300

/-- `consts::BULLET_INTERVAL_TICKS = 10`. -/
def BULLET_INTERVAL_TICKS : Nat := 10

/-- The client's `bitflags` `Input` (a `u8` with four flags). -/
structure Input where
  shoot : Bool
  left : Bool
  right : Bool
  jump : Bool
deriving DecidableEq

/-- `Input::empty()`. -/
def Input.empty : Input := ⟨false, false, false, false⟩

/-- The mutable collision-world/physics interface used by the client
(`macroquad_platformer`), an external collaborator.  Per the spec it is an
opaque deterministic solver, so its four entry points are arbitrary pure
functions; the per-actor position store itself is part of the host state
(`Game.actorPos`).  `moveH pos dx` returns the actor's position after
`move_h`; `moveV pos dy` returns the position after `move_v` together with
`move_v`'s boolean result; `collideCheck`/`solidAt` are the solidity tests. -/
structure Physics where
  moveH : Vec2 → Frac → Vec2
  moveV : Vec2 → Frac → Vec2 × Bool
  collideCheck : Vec2 → Bool
  solidAt : Vec2 → Bool

/-- Host-side player entity (`struct Player` of the client). -/
structure Player where
  backrollPlayerHandle : Nat
  collider : Nat
  speed : Vec2
  prevJumpDown : Bool
  facingRight : Bool
  health : Int
  gunClock : Nat
deriving DecidableEq

/-- Host-side bullet entity (`struct Bullet` of the client). -/
structure Bullet where
  pos : Vec2
  speed : Vec2
  lived : Frac
  lifetime : Frac
deriving DecidableEq

/-- Snapshot of one player (`struct PlayerState` of the client). -/
structure PlayerState where
  x : Frac
  y : Frac
  vx : Frac
  vy : Frac
  prevJumpDown : Bool
  facingRight : Bool
  health : Int
  gunClock : Nat
deriving DecidableEq

/-- Snapshot of one bullet (`struct BulletState` of the client). -/
structure BulletState where
  x : Frac
  y : Frac
  vx : Frac
  vy : Frac
  lived : Frac
  lifetime : Frac
deriving DecidableEq

/-- The backroll save state (`struct State` of the client). -/
structure State where
  players : List PlayerState
  bullets : List BulletState
deriving DecidableEq

/-- The host game state that the command stream mutates: the players and
bullets lists, the collision world's actor position store (indexed by the
`Actor` id handed out by `add_actor`), and the `frames_to_stall` pacing
counter. -/
structure Game where
  players : List Player
  bullets : List Bullet
  actorPos : List Vec2
  framesToStall : Nat
deriving DecidableEq

/-- `collision_world.actor_pos(actor)`: read an actor's position. -/
def lookupPos (w : List Vec2) (i : Nat) : Vec2 := (w[i]?).getD ⟨0, 0⟩

/-- The events of `backroll::Event` the client matches on. -/
inductive BEvent where
  | connected (player : Nat)
  | synchronizing (player count total : Nat)
  | synchronized (player : Nat)
  | running
  | disconnected (player : Nat)
  | timeSync (framesAhead : Nat)
  | connectionInterrupted (player : Nat) (disconnectTimeout : Nat)
  | connectionResumed (player : Nat)
deriving DecidableEq

/-- The commands of `backroll::command::Command` the client matches on.
`save`/`load` carry the slot the session's save-cell handle refers to;
`advanceFrame` carries the per-player-handle inputs (`input.get(handle)`). -/
inductive Command where
  | save (slot : Nat)
  | load (slot : Nat)
  | advanceFrame (inp : Nat → Input)
  | event (e : BEvent)

/-- `Command::Save` arm: capture one player into a `PlayerState`
(position read from the collision world, then the copied fields). -/
def capturePlayer (w : List Vec2) (p : Player) : PlayerState :=
  let pos := lookupPos w p.collider
  { x := pos.x, y := pos.y, vx := p.speed.x, vy := p.speed.y,
    prevJumpDown := p.prevJumpDown, facingRight := p.facingRight,
    health := p.health, gunClock := p.gunClock }

/-- `Command::Save` arm: capture one bullet into a `BulletState`. -/
def captureBullet (b : Bullet) : BulletState :=
  { x := b.pos.x, y := b.pos.y, vx := b.speed.x, vy := b.speed.y,
    lived := b.lived, lifetime := b.lifetime }

/-- `Command::Save` arm: the `State { players, bullets }` value passed to
`save_state.save(..)`. -/
def captureState (g : Game) : State :=
  { players := g.players.map (capturePlayer g.actorPos),
    bullets := g.bullets.map captureBullet }

/-- `Command::Load` arm, one zipped pair: overwrite the player's fields from
the snapshot, keeping `backroll_player_handle` and `collider`. -/
def restorePlayer (ps : PlayerState) (p : Player) : Player :=
  { backrollPlayerHandle := p.backrollPlayerHandle, collider := p.collider,
    speed := ⟨ps.vx, ps.vy⟩, prevJumpDown := ps.prevJumpDown,
    facingRight := ps.facingRight, health := ps.health, gunClock := ps.gunClock }

/-- `Command::Load` arm, one zipped pair: rebuild a bullet from the snapshot. -/
def restoreBullet (bs : BulletState) : Bullet :=
  { pos := ⟨bs.x, bs.y⟩, speed := ⟨bs.vx, bs.vy⟩,
    lived := bs.lived, lifetime := bs.lifetime }

/-- Apply a sequence of `set_actor_position` writes in order. -/
def setAll (w : List Vec2) (writes : List (Nat × Vec2)) : List Vec2 :=
  writes.foldl (fun acc wr => acc.set wr.1 wr.2) w

/-- `Command::Load` arm of `run_commands`.  The source iterates
`state.players.iter().zip(self.players.iter_mut())` (and likewise for
bullets): only the first `min` entries of each current list are overwritten,
any excess current entries survive, any excess snapshot entries are dropped,
and each zipped player also gets a `set_actor_position` write at its collider.
The per-pair player update reads nothing from the collision world and the
position writes read nothing from the updated players, so the in-place loop
is rendered as `zipWith ++ drop` plus the ordered position writes. -/
def loadState (s : State) (g : Game) : Game :=
  { players := (List.zipWith restorePlayer s.players g.players) ++
      g.players.drop s.players.length,
    bullets := (List.zipWith (fun bs _ => restoreBullet bs) s.bullets g.bullets) ++
      g.bullets.drop s.bullets.length,
    actorPos := setAll g.actorPos
      (List.zipWith (fun ps p => (p.collider, (⟨ps.x, ps.y⟩ : Vec2))) s.players g.players),
    framesToStall := g.framesToStall }

/-- The bullet pushed by the shooting branch of the player loop:
`Bullet { pos: pos + vec2(4,4) + dir*8, speed: dir*BULLET_SPEED, lived: 0.0,
lifetime: 0.7 }` with `dir` from the player's facing. -/
def spawnBullet (pos : Vec2) (facingRight : Bool) : Bullet :=
  let dir : Vec2 := if facingRight then ⟨1, 0⟩ else ⟨-1, 0⟩
  { pos := pos + ⟨4, 4⟩ + dir.scale 8
    speed := dir.scale BULLET_SPEED
    lived := 0
    lifetime := ⟨7, 10⟩ }

/-- One iteration of the `for player in &mut self.players` loop of the
`Command::AdvanceFrame` arm: input handling (run/jump/shoot), facing update,
gravity, then `move_h`/`move_v` through the collision world.  The trailing
`set_actor_position(collider, actor_pos(collider))` remainder-clearing hack is
the identity here because the embedded position store holds exact positions.
Returns the updated player, the updated actor position store, and the bullets
list (extended when a bullet is spawned). -/
def stepPlayer (ph : Physics) (inp : Nat → Input) (w : List Vec2)
    (bullets : List Bullet) (p : Player) : Player × List Vec2 × List Bullet :=
  let pos := lookupPos w p.collider
  let onGround := ph.collideCheck (pos + ⟨0, 1⟩)
  let i := inp p.backrollPlayerHandle
  let sx : Frac := if i.right then RUN_SPEED else if i.left then -RUN_SPEED else 0
  let syJump : Frac :=
    if i.jump && !p.prevJumpDown && onGround then -JUMP_SPEED else p.speed.y
  let bullets1 :=
    if i.shoot && p.gunClock == 0 then bullets ++ [spawnBullet pos p.facingRight]
    else bullets
  let gunClock1 := if i.shoot then (p.gunClock + 1) % BULLET_INTERVAL_TICKS else 0
  let facing1 := if sx < 0 then false else if 0 < sx then true else p.facingRight
  let sy1 := if !onGround then syJump + GRAVITY * TIMESTEP else syJump
  let posH := ph.moveH pos (sx * TIMESTEP)
  let moved := ph.moveV posH (sy1 * TIMESTEP)
  let sy2 := if moved.2 then sy1 else 0
  let p' : Player :=
    { p with
      speed := ⟨sx, sy2⟩
      prevJumpDown := i.jump
      facingRight := facing1
      gunClock := gunClock1 }
  (p', w.set p.collider moved.1, bullets1)

/-- The whole `for player in &mut self.players` loop, threading the collision
world and the bullets list left to right. -/
def stepPlayers (ph : Physics) (inp : Nat → Input) :
    List Player → List Vec2 → List Bullet → List Player × List Vec2 × List Bullet
  | [], w, bs => ([], w, bs)
  | p :: rest, w, bs =>
    let r := stepPlayer ph inp w bs p
    let rr := stepPlayers ph inp rest r.2.1 r.2.2
    (r.1 :: rr.1, rr.2)

/-- `bullet.pos += bullet.speed * TIMESTEP; bullet.lived += TIMESTEP;`. -/
def moveBullets (bs : List Bullet) : List Bullet :=
  bs.map fun b =>
    { b with pos := b.pos + b.speed.scale TIMESTEP, lived := b.lived + TIMESTEP }

/-- macroquad `Rect::new(x, y, 8.0, 8.0).contains(point)` (bounds inclusive). -/
def rectContains (corner : Vec2) (p : Vec2) : Bool :=
  corner.x ≤ p.x && p.x ≤ corner.x + 8 && corner.y ≤ p.y && p.y ≤ corner.y + 8

/-- The inner `for player in players.iter_mut()` of the bullet `retain`
closure: damage the first player whose 8×8 rect contains the bullet and stop;
`none` when no player is hit. -/
def damageFirst (w : List Vec2) (pos : Vec2) : List Player → Option (List Player)
  | [] => none
  | p :: rest =>
    if rectContains (lookupPos w p.collider) pos then
      some ({ p with health := p.health - 5 } :: rest)
    else
      (damageFirst w pos rest).map (p :: ·)

/-- The `self.bullets.retain(..)` closure of the `Command::AdvanceFrame` arm,
processed front to back: a bullet hitting a solid tile is dropped; otherwise a
bullet contained in some player's rect damages that (first such) player and is
dropped; otherwise it is kept iff `lived < lifetime`. -/
def updateBullets (ph : Physics) (w : List Vec2) :
    List Bullet → List Player → List Bullet × List Player
  | [], ps => ([], ps)
  | b :: rest, ps =>
    if ph.solidAt b.pos then updateBullets ph w rest ps
    else
      match damageFirst w b.pos ps with
      | some ps' => updateBullets ph w rest ps'
      | none =>
        let r := updateBullets ph w rest ps
        (if b.lived < b.lifetime then b :: r.1 else r.1, r.2)

/-- The `Command::AdvanceFrame(input)` arm of `run_commands`: step every
player (threading collision world and spawned bullets), advance every bullet,
run the bullet `retain` with its player-damage side effect, then
`self.players.retain(|player| player.health > 0)`. -/
def runAdvanceFrame (ph : Physics) (inp : Nat → Input) (g : Game) : Game :=
  let sp := stepPlayers ph inp g.players g.actorPos g.bullets
  let ub := updateBullets ph sp.2.1 (moveBullets sp.2.2) sp.1
  { players := ub.2.filter (fun p => 0 < p.health),
    bullets := ub.1,
    actorPos := sp.2.1,
    framesToStall := g.framesToStall }

/-- The host (`struct Game` of the client) as acted on by the command stream:
its game state plus the session's save slots that `Save`/`Load` handles refer
to. -/
structure Host where
  game : Game
  slots : Nat → Option State

/-- One arm of the `match command` in `Game::run_commands`.  All
`Command::Event` arms except `TimeSync` only log; `TimeSync { frames_ahead }`
does `self.frames_to_stall = frames_ahead`. -/
def runCommand (ph : Physics) (h : Host) (c : Command) : Host :=
  match c with
  | .save k =>
    { h with slots := fun j => if j = k then some (captureState h.game) else h.slots j }
  | .load k =>
    match h.slots k with
    | some s => { h with game := loadState s h.game }
    | none => h
  | .advanceFrame inp => { h with game := runAdvanceFrame ph inp h.game }
  | .event e =>
    match e with
    | .timeSync n => { h with game := { h.game with framesToStall := n } }
    | _ => h

/-- `Game::run_commands`: execute every command of the stream, in order. -/
def runCommands (ph : Physics) (h : Host) (cs : List Command) : Host :=
  cs.foldl (runCommand ph) h

/-- Result of `P2PSession::add_local_input` as the client's `match`
distinguishes it: `Ok(())`, `Err(ReachedPredictionBarrier)`, or any other
error (which the client `panic!`s on). -/
inductive AddInputResult where
  | ok
  | reachedPredictionBarrier
  | otherError
deriving DecidableEq

/-- What the session returns during one `Game::update` tick.  The session
(`backroll::P2PSession`) is an external collaborator; one tick observes the
command stream of `poll()`, the value of `is_synchronized()`, the result of
`add_local_input(..)`, and the command stream of `advance_frame()` (consumed
only when `add_local_input` returned `Ok`). -/
structure SessionView where
  pollCommands : List Command
  isSynchronized : Bool
  addLocalInput : AddInputResult
  advanceCommands : List Command

/-- Outcome of one `Game::update` tick: the new host (`none` when the tick
`panic!`s), and how many times `add_local_input` and `advance_frame` were
called. -/
structure UpdateResult where
  host : Option Host
  addLocalInputCalls : Nat
  advanceFrameCalls : Nat

/-- `Game::update`: run the `poll()` commands; then, if `frames_to_stall > 0`,
decrement it and do nothing else; otherwise, if synchronized, submit local
input and on `Ok` run the `advance_frame()` commands, on
`ReachedPredictionBarrier` just warn (stall), and on any other error panic. -/
def update (ph : Physics) (sv : SessionView) (h : Host) : UpdateResult :=
  let h1 := runCommands ph h sv.pollCommands
  if 0 < h1.game.framesToStall then
    { host := some { h1 with game := { h1.game with framesToStall := h1.game.framesToStall - 1 } },
      addLocalInputCalls := 0, advanceFrameCalls := 0 }
  else if sv.isSynchronized then
    match sv.addLocalInput with
    | .ok =>
      { host := some (runCommands ph h1 sv.advanceCommands),
        addLocalInputCalls := 1, advanceFrameCalls := 1 }
    | .reachedPredictionBarrier =>
      { host := some h1, addLocalInputCalls := 1, advanceFrameCalls := 0 }
    | .otherError =>
      { host := none, addLocalInputCalls := 1, advanceFrameCalls := 0 }
  else
    { host := some h1, addLocalInputCalls := 0, advanceFrameCalls := 0 }

/-- One tick of the host loop viewed as a `Host → Host` map (the panic case
is never reached where this is used). -/
def updateTick (ph : Physics) (sv : SessionView) (h : Host) : Host :=
  ((update ph sv h).host).getD h

/-- A sequence of `Command::AdvanceFrame` executions viewed directly on the
game state. -/
def advChain (ph : Physics) (L : List (Nat → Input)) (g : Game) : Game :=
  L.foldl (fun g i => runAdvanceFrame ph i g) g

/-- The identity of a player that `Command::Load` keeps and
`Command::AdvanceFrame` never rewrites: its backroll handle and its collider. -/
def skel (p : Player) : Nat × Nat := (p.backrollPlayerHandle, p.collider)

/-- Erase the one field the bullet-collision pass may rewrite (`health`),
to state that the pass changes nothing else. -/
def stripHealth (p : Player) : Player := { p with health := 0 }

/-- A concrete instance of the opaque collision solver, used to evaluate the
theorems below on closed inputs: free horizontal/vertical movement, every
`collide_check` true (actors grounded), no solid tiles. -/
def trivialPhysics : Physics :=
  { moveH := fun p dx => ⟨p.x + dx, p.y⟩
    moveV := fun p dy => (⟨p.x, p.y + dy⟩, true)
    collideCheck := fun _ => true
    solidAt := fun _ => false }

/-- A concrete player for closed instances. -/
def player0 : Player :=
  { backrollPlayerHandle := 0, collider := 0, speed := ⟨0, 0⟩,
    prevJumpDown := false, facingRight := true, health := 100, gunClock := 0 }

/-- A concrete one-player game state for closed instances. -/
def game0 : Game :=
  { players := [player0], bullets := [], actorPos := [⟨0, 0⟩], framesToStall := 0 }

/-- A concrete host with empty save slots for closed instances. -/
def host0 : Host := { game := game0, slots := fun _ => none }

/-- "Hold SHOOT" input for every player handle. -/
def inpShoot : Nat → Input := fun _ => ⟨true, false, false, false⟩

/-- Empty input for every player handle. -/
def inpNone : Nat → Input := fun _ => Input.empty

/-- A concrete session tick view: nothing polled, synchronized,
`add_local_input` succeeds, empty advance stream. -/
def svOk : SessionView :=
  { pollCommands := [], isSynchronized := true,
    addLocalInput := .ok, advanceCommands := [] }

/-- A concrete host that has two stall frames pending. -/
def hostStall2 : Host :=
  { game := { game0 with framesToStall := 2 }, slots := fun _ => none }

/-- The `run_commands` prefix of the closed rollback counterexample:
`Save(0)` then one `AdvanceFrame` with SHOOT held (which spawns a bullet). -/
def saveShootRun : Host :=
  runCommands trivialPhysics host0 [Command.save 0, Command.advanceFrame inpShoot]

namespace PlayerStateBits

/-! `PlayerStateBits` of `src/src/main.rs`: a 3-byte little-endian bitfield,
carried as the natural number `b0 + 256*b1 + 65536*b2 < 2^24`, with
`x` in bits 9..0, `y` in bits 19..10, `facing` in bit 20, `shooting` in
bit 21 (the `bitfield` crate numbers bits LSB-first across the array). -/

/-- Read `x` (bits 9..0). -/
def x (w : Nat) : Nat := w % 1024

/-- Write `x` (bits 9..0); the bitfield crate truncates the value to the
field width. -/
def set_x (w v : Nat) : Nat := (w / 1024) * 1024 + v % 1024

/-- Read `y` (bits 19..10). -/
def y (w : Nat) : Nat := (w / 1024) % 1024

/-- Write `y` (bits 19..10). -/
def set_y (w v : Nat) : Nat := (w / 1048576) * 1048576 + (v % 1024) * 1024 + w % 1024

/-- Read `facing` (bit 20). -/
def facing (w : Nat) : Bool := (w / 1048576) % 2 = 1

/-- Write `facing` (bit 20). -/
def set_facing (w : Nat) (b : Bool) : Nat :=
  (w / 2097152) * 2097152 + (if b then 1 else 0) * 1048576 + w % 1048576

/-- Read `shooting` (bit 21). -/
def shooting (w : Nat) : Bool := (w / 2097152) % 2 = 1

/-- Write `shooting` (bit 21). -/
def set_shooting (w : Nat) (b : Bool) : Nat :=
  (w / 4194304) * 4194304 + (if b then 1 else 0) * 2097152 + w % 2097152

/-- The `Move` payload built by `World::sync_state`: starting from
`PlayerStateBits([0; 3])`, `set_x`, `set_y`, `set_facing`, `set_shooting`
in that order. -/
def encodeMove (px py : Nat) (f s : Bool) : Nat :=
  set_shooting (set_facing (set_y (set_x 0 px) py) f) s

/-- The receive side of `World::sync_state`: read back the four fields of a
`Move` payload. -/
def decodeMove (w : Nat) : Nat × Nat × Bool × Bool := (x w, y w, facing w, shooting w)

end PlayerStateBits

/-! ### Helper lemmas: unfolding equations -/

theorem stepPlayers_cons (ph : Physics) (inp : Nat → Input) (p : Player) (t : List Player)
    (w : List Vec2) (bs : List Bullet) :
    stepPlayers ph inp (p :: t) w bs =
      ((stepPlayer ph inp w bs p).1 ::
        (stepPlayers ph inp t (stepPlayer ph inp w bs p).2.1 (stepPlayer ph inp w bs p).2.2).1,
       (stepPlayers ph inp t (stepPlayer ph inp w bs p).2.1 (stepPlayer ph inp w bs p).2.2).2) := rfl

theorem damageFirst_cons (w : List Vec2) (pos : Vec2) (p : Player) (t : List Player) :
    damageFirst w pos (p :: t) =
      if rectContains (lookupPos w p.collider) pos then
        some ({ p with health := p.health - 5 } :: t)
      else
        (damageFirst w pos t).map (p :: ·) := rfl

theorem updateBullets_cons (ph : Physics) (w : List Vec2) (b : Bullet) (t : List Bullet)
    (ps : List Player) :
    updateBullets ph w (b :: t) ps =
      if ph.solidAt b.pos then updateBullets ph w t ps
      else
        match damageFirst w b.pos ps with
        | some ps' => updateBullets ph w t ps'
        | none =>
          (if b.lived < b.lifetime then b :: (updateBullets ph w t ps).1
            else (updateBullets ph w t ps).1, (updateBullets ph w t ps).2) := rfl

/-! ### Helper lemmas: the actor position store -/

theorem length_setAll (ws : List (Nat × Vec2)) (w : List Vec2) :
    (setAll w ws).length = w.length := by
  induction ws generalizing w with
  | nil => rfl
  | cons a t ih =>
    show (setAll (w.set a.1 a.2) t).length = w.length
    rw [ih, List.length_set]

theorem getElem?_setAll_of_not_mem (ws : List (Nat × Vec2)) (w : List Vec2) (j : Nat)
    (hj : j ∉ ws.map Prod.fst) : (setAll w ws)[j]? = w[j]? := by
  induction ws generalizing w with
  | nil => rfl
  | cons a t ih =>
    simp only [List.map_cons, List.mem_cons, not_or] at hj
    show (setAll (w.set a.1 a.2) t)[j]? = w[j]?
    rw [ih _ hj.2, List.getElem?_set_ne (Ne.symm hj.1)]

theorem getElem?_setAll_of_nodup (ws : List (Nat × Vec2)) (w : List Vec2) (c : Nat) (v : Vec2)
    (hnd : (ws.map Prod.fst).Nodup) (hmem : (c, v) ∈ ws) (hc : c < w.length) :
    (setAll w ws)[c]? = some v := by
  induction ws generalizing w with
  | nil => cases hmem
  | cons a t ih =>
    simp only [List.map_cons, List.nodup_cons] at hnd
    rcases List.mem_cons.mp hmem with h | h
    · subst h
      show (setAll (w.set c v) t)[c]? = some v
      rw [getElem?_setAll_of_not_mem t _ c hnd.1, List.getElem?_set_self hc]
    · show (setAll (w.set a.1 a.2) t)[c]? = some v
      exact ih (w.set a.1 a.2) hnd.2 h (by rw [List.length_set]; exact hc)

/-! ### Helper lemmas: the per-player loop of `AdvanceFrame` -/

theorem stepPlayer_handle (ph : Physics) (inp : Nat → Input) (w : List Vec2)
    (bs : List Bullet) (p : Player) :
    ((stepPlayer ph inp w bs p).1).backrollPlayerHandle = p.backrollPlayerHandle := rfl

theorem stepPlayer_collider (ph : Physics) (inp : Nat → Input) (w : List Vec2)
    (bs : List Bullet) (p : Player) :
    ((stepPlayer ph inp w bs p).1).collider = p.collider := rfl

theorem stepPlayer_gunClock_lt (ph : Physics) (inp : Nat → Input) (w : List Vec2)
    (bs : List Bullet) (p : Player) :
    ((stepPlayer ph inp w bs p).1).gunClock < BULLET_INTERVAL_TICKS := by
  show (if (inp p.backrollPlayerHandle).shoot then
      (p.gunClock + 1) % BULLET_INTERVAL_TICKS else 0) < BULLET_INTERVAL_TICKS
  split
  · exact Nat.mod_lt _ (by decide)
  · decide

theorem stepPlayers_length (ph : Physics) (inp : Nat → Input) (ps : List Player)
    (w : List Vec2) (bs : List Bullet) :
    (stepPlayers ph inp ps w bs).1.length = ps.length := by
  induction ps generalizing w bs with
  | nil => rfl
  | cons p t ih => rw [stepPlayers_cons]; simp [ih]

theorem stepPlayers_skel (ph : Physics) (inp : Nat → Input) (ps : List Player)
    (w : List Vec2) (bs : List Bullet) :
    (stepPlayers ph inp ps w bs).1.map skel = ps.map skel := by
  induction ps generalizing w bs with
  | nil => rfl
  | cons p t ih =>
    rw [stepPlayers_cons]
    simp only [List.map_cons, ih]
    rfl

theorem stepPlayers_world_length (ph : Physics) (inp : Nat → Input) (ps : List Player)
    (w : List Vec2) (bs : List Bullet) :
    (stepPlayers ph inp ps w bs).2.1.length = w.length := by
  induction ps generalizing w bs with
  | nil => rfl
  | cons p t ih =>
    rw [stepPlayers_cons]
    show (stepPlayers ph inp t _ _).2.1.length = w.length
    rw [ih]
    show (w.set p.collider _).length = w.length
    exact List.length_set w _ _

theorem stepPlayers_world_not_mem (ph : Physics) (inp : Nat → Input) (ps : List Player)
    (w : List Vec2) (bs : List Bullet) (j : Nat) (hj : j ∉ ps.map Player.collider) :
    (stepPlayers ph inp ps w bs).2.1[j]? = w[j]? := by
  induction ps generalizing w bs with
  | nil => rfl
  | cons p t ih =>
    simp only [List.map_cons, List.mem_cons, not_or] at hj
    rw [stepPlayers_cons]
    show (stepPlayers ph inp t _ _).2.1[j]? = w[j]?
    rw [ih _ _ hj.2]
    show (w.set p.collider _)[j]? = w[j]?
    exact List.getElem?_set_ne (Ne.symm hj.1)

theorem stepPlayers_gunClock (ph : Physics) (inp : Nat → Input) (ps : List Player)
    (w : List Vec2) (bs : List Bullet) (q : Player)
    (hq : q ∈ (stepPlayers ph inp ps w bs).1) : q.gunClock < BULLET_INTERVAL_TICKS := by
  induction ps generalizing w bs with
  | nil => cases hq
  | cons p t ih =>
    rcases List.mem_cons.mp hq with h | h
    · subst h; exact stepPlayer_gunClock_lt ph inp w bs p
    · exact ih _ _ h

/-! ### Helper lemmas: the bullet `retain` pass -/

theorem damageFirst_strip (w : List Vec2) (pos : Vec2) (ps ps' : List Player)
    (h : damageFirst w pos ps = some ps') :
    ps'.map stripHealth = ps.map stripHealth := by
  induction ps generalizing ps' with
  | nil => cases h
  | cons p t ih =>
    rw [damageFirst_cons] at h
    by_cases hc : rectContains (lookupPos w p.collider) pos
    · rw [if_pos hc] at h
      cases h
      simp [stripHealth]
    · rw [if_neg hc] at h
      obtain ⟨a, ha, hb⟩ := Option.map_eq_some'.mp h
      subst hb
      simp [ih a ha]

theorem updateBullets_strip (ph : Physics) (w : List Vec2) (bs : List Bullet)
    (ps : List Player) :
    ((updateBullets ph w bs ps).2).map stripHealth = ps.map stripHealth := by
  induction bs generalizing ps with
  | nil => rfl
  | cons b t ih =>
    rw [updateBullets_cons]
    by_cases hs : ph.solidAt b.pos
    · rw [if_pos hs]; exact ih ps
    · rw [if_neg hs]
      cases hd : damageFirst w b.pos ps with
      | none => exact ih ps
      | some ps' =>
        show ((updateBullets ph w t ps').2).map stripHealth = ps.map stripHealth
        rw [ih ps', damageFirst_strip w b.pos ps ps' hd]

theorem updateBullets_players_length (ph : Physics) (w : List Vec2) (bs : List Bullet)
    (ps : List Player) : ((updateBullets ph w bs ps).2).length = ps.length := by
  have h := congrArg List.length (updateBullets_strip ph w bs ps)
  simpa using h

theorem filter_eq_self_of_length {α : Type} (p : α → Bool) (l : List α)
    (h : (l.filter p).length = l.length) : l.filter p = l := by
  induction l with
  | nil => rfl
  | cons a t ih =>
    by_cases hpa : p a
    · simp only [List.filter_cons, hpa, if_pos, List.length_cons] at h ⊢
      rw [ih (by omega)]
    · simp only [List.filter_cons, hpa, Bool.false_eq_true, if_neg, not_false_iff,
        List.length_cons] at h
      have := List.length_filter_le p t
      omega

theorem skel_stripHealth (p : Player) : skel (stripHealth p) = skel p := rfl

theorem map_skel_of_map_strip {l1 l2 : List Player}
    (h : l1.map stripHealth = l2.map stripHealth) : l1.map skel = l2.map skel := by
  have hc : skel ∘ stripHealth = skel := funext fun p => rfl
  have h1 := congrArg (List.map skel) h
  rw [List.map_map, List.map_map, hc] at h1
  exact h1

/-! ### Helper lemmas: the AdvanceFrame command as a whole -/

theorem runAdvanceFrame_players_length_le (ph : Physics) (inp : Nat → Input) (g : Game) :
    (runAdvanceFrame ph inp g).players.length ≤ g.players.length := by
  simp only [runAdvanceFrame]
  refine le_trans (List.length_filter_le _ _) ?_
  rw [updateBullets_players_length, stepPlayers_length]

theorem runAdvanceFrame_skel_of_length (ph : Physics) (inp : Nat → Input) (g : Game)
    (h : (runAdvanceFrame ph inp g).players.length = g.players.length) :
    (runAdvanceFrame ph inp g).players.map skel = g.players.map skel := by
  simp only [runAdvanceFrame] at h ⊢
  have hub : ((updateBullets ph (stepPlayers ph inp g.players g.actorPos g.bullets).2.1
      (moveBullets (stepPlayers ph inp g.players g.actorPos g.bullets).2.2)
      (stepPlayers ph inp g.players g.actorPos g.bullets).1).2).length = g.players.length := by
    rw [updateBullets_players_length, stepPlayers_length]
  rw [filter_eq_self_of_length _ _ (by omega)]
  refine (map_skel_of_map_strip (updateBullets_strip ph _ _ _)).trans ?_
  exact stepPlayers_skel ph inp g.players g.actorPos g.bullets

theorem runAdvanceFrame_actorPos_length (ph : Physics) (inp : Nat → Input) (g : Game) :
    (runAdvanceFrame ph inp g).actorPos.length = g.actorPos.length := by
  simp only [runAdvanceFrame]
  exact stepPlayers_world_length ph inp g.players g.actorPos g.bullets

theorem runAdvanceFrame_actorPos_not_mem (ph : Physics) (inp : Nat → Input) (g : Game)
    (j : Nat) (hj : j ∉ g.players.map Player.collider) :
    (runAdvanceFrame ph inp g).actorPos[j]? = g.actorPos[j]? := by
  simp only [runAdvanceFrame]
  exact stepPlayers_world_not_mem ph inp g.players g.actorPos g.bullets j hj

theorem runAdvanceFrame_stall (ph : Physics) (inp : Nat → Input) (g : Game) :
    (runAdvanceFrame ph inp g).framesToStall = g.framesToStall := rfl

/-! ### Helper lemmas: chains of AdvanceFrame commands -/

theorem advChain_nil (ph : Physics) (g : Game) : advChain ph [] g = g := rfl

theorem advChain_cons (ph : Physics) (i : Nat → Input) (L : List (Nat → Input)) (g : Game) :
    advChain ph (i :: L) g = advChain ph L (runAdvanceFrame ph i g) := rfl

theorem advChain_players_length_le (ph : Physics) (L : List (Nat → Input)) (g : Game) :
    (advChain ph L g).players.length ≤ g.players.length := by
  induction L generalizing g with
  | nil => exact Nat.le_refl _
  | cons i t ih =>
    exact le_trans (ih (runAdvanceFrame ph i g)) (runAdvanceFrame_players_length_le ph i g)

theorem advChain_props (ph : Physics) (L : List (Nat → Input)) (g : Game)
    (hlen : (advChain ph L g).players.length = g.players.length) :
    (advChain ph L g).players.map skel = g.players.map skel ∧
    (advChain ph L g).actorPos.length = g.actorPos.length ∧
    (∀ j, j ∉ g.players.map Player.collider →
      (advChain ph L g).actorPos[j]? = g.actorPos[j]?) ∧
    (advChain ph L g).framesToStall = g.framesToStall := by
  induction L generalizing g with
  | nil => exact ⟨rfl, rfl, fun _ _ => rfl, rfl⟩
  | cons i t ih =>
    rw [advChain_cons] at hlen ⊢
    have h1 := advChain_players_length_le ph t (runAdvanceFrame ph i g)
    have h2 := runAdvanceFrame_players_length_le ph i g
    have hstep : (runAdvanceFrame ph i g).players.length = g.players.length := by omega
    obtain ⟨s1, s2, s3, s4⟩ := ih (runAdvanceFrame ph i g) (by omega)
    have skstep := runAdvanceFrame_skel_of_length ph i g hstep
    have hcol : (runAdvanceFrame ph i g).players.map Player.collider =
        g.players.map Player.collider := by
      have hm := congrArg (List.map Prod.snd) skstep
      rw [List.map_map, List.map_map] at hm
      exact hm
    refine ⟨s1.trans skstep, s2.trans (runAdvanceFrame_actorPos_length ph i g), ?_,
      s4.trans (runAdvanceFrame_stall ph i g)⟩
    intro j hj
    have hj2 : j ∉ (runAdvanceFrame ph i g).players.map Player.collider := by
      rw [hcol]; exact hj
    exact (s3 j hj2).trans (runAdvanceFrame_actorPos_not_mem ph i g j hj)

/-! ### Helper lemmas: Save/Load round trips -/

theorem restorePlayer_capture (w : List Vec2) (p0 p1 : Player)
    (hh : p1.backrollPlayerHandle = p0.backrollPlayerHandle)
    (hc : p1.collider = p0.collider) :
    restorePlayer (capturePlayer w p0) p1 = p0 := by
  simp [restorePlayer, capturePlayer, hh, hc]

theorem skel_cons_inv {p1 p0 : Player} {t1 t0 : List Player}
    (h : (p1 :: t1).map skel = (p0 :: t0).map skel) :
    p1.backrollPlayerHandle = p0.backrollPlayerHandle ∧ p1.collider = p0.collider ∧
      t1.map skel = t0.map skel := by
  simp only [List.map_cons, List.cons.injEq] at h
  exact ⟨congrArg Prod.fst h.1, congrArg Prod.snd h.1, h.2⟩

theorem zipWith_restorePlayer_capture (w : List Vec2) (l0 l1 : List Player)
    (h : l1.map skel = l0.map skel) :
    List.zipWith restorePlayer (l0.map (capturePlayer w)) l1 = l0 := by
  induction l0 generalizing l1 with
  | nil => simp
  | cons p0 t0 ih =>
    cases l1 with
    | nil => simp at h
    | cons p1 t1 =>
      obtain ⟨h1, h2, h3⟩ := skel_cons_inv h
      simp only [List.map_cons, List.zipWith_cons_cons]
      rw [restorePlayer_capture w p0 p1 h1 h2, ih t1 h3]

theorem zipWith_restoreBullet_capture (l0 l1 : List Bullet) (h : l1.length = l0.length) :
    List.zipWith (fun bs _ => restoreBullet bs) (l0.map captureBullet) l1 = l0 := by
  induction l0 generalizing l1 with
  | nil => simp
  | cons b0 t0 ih =>
    cases l1 with
    | nil => simp at h
    | cons b1 t1 =>
      simp only [List.map_cons, List.zipWith_cons_cons]
      exact congrArg₂ List.cons rfl (ih t1 (by simpa using h))

theorem zipWith_writes_capture (w : List Vec2) (l0 l1 : List Player)
    (h : l1.map skel = l0.map skel) :
    List.zipWith (fun ps p => (p.collider, (⟨ps.x, ps.y⟩ : Vec2)))
        (l0.map (capturePlayer w)) l1
      = l0.map (fun p => (p.collider, lookupPos w p.collider)) := by
  induction l0 generalizing l1 with
  | nil => simp
  | cons p0 t0 ih =>
    cases l1 with
    | nil => simp at h
    | cons p1 t1 =>
      obtain ⟨h1, h2, h3⟩ := skel_cons_inv h
      simp only [List.map_cons, List.zipWith_cons_cons]
      rw [ih t1 h3]
      refine congrArg₂ List.cons ?_ rfl
      rw [h2]
      rfl

theorem loadState_captureState_restore (g0 g1 : Game)
    (hskel : g1.players.map skel = g0.players.map skel)
    (hblen : g1.bullets.length = g0.bullets.length)
    (hwlen : g1.actorPos.length = g0.actorPos.length)
    (hwoff : ∀ j, j ∉ g0.players.map Player.collider → g1.actorPos[j]? = g0.actorPos[j]?)
    (hnodup : (g0.players.map Player.collider).Nodup)
    (hrange : ∀ c ∈ g0.players.map Player.collider, c < g0.actorPos.length)
    (hstall : g1.framesToStall = g0.framesToStall) :
    loadState (captureState g0) g1 = g0 := by
  have hplen : g1.players.length = g0.players.length := by
    have hl := congrArg List.length hskel; simpa using hl
  obtain ⟨ps0, bs0, w0, st0⟩ := g0
  simp only at hskel hblen hwlen hwoff hnodup hrange hstall hplen
  simp only [loadState, captureState, Game.mk.injEq]
  refine ⟨?_, ?_, ?_, hstall⟩
  · rw [zipWith_restorePlayer_capture w0 ps0 g1.players hskel,
      List.drop_eq_nil_of_le (by simp [hplen]), List.append_nil]
  · rw [zipWith_restoreBullet_capture bs0 g1.bullets hblen,
      List.drop_eq_nil_of_le (by simp [hblen]), List.append_nil]
  · rw [zipWith_writes_capture w0 ps0 g1.players hskel]
    apply List.ext_getElem?
    intro j
    by_cases hjm : j ∈ ps0.map Player.collider
    · have hjr : j < w0.length := hrange j hjm
      obtain ⟨p, hp, hpc⟩ := List.mem_map.mp hjm
      have hmem : (j, lookupPos w0 j) ∈
          ps0.map (fun p => (p.collider, lookupPos w0 p.collider)) :=
        List.mem_map.mpr ⟨p, hp, by rw [hpc]⟩
      have hnd2 : ((ps0.map (fun p => (p.collider, lookupPos w0 p.collider))).map
          Prod.fst).Nodup := by
        rw [List.map_map]; exact hnodup
      rw [getElem?_setAll_of_nodup _ _ j (lookupPos w0 j) hnd2 hmem
        (by rw [hwlen]; exact hjr)]
      rw [List.getElem?_eq_getElem hjr]
      show some (lookupPos w0 j) = some w0[j]
      rw [lookupPos, List.getElem?_eq_getElem hjr]
      rfl
    · have hnj : j ∉ (ps0.map (fun p => (p.collider, lookupPos w0 p.collider))).map
          Prod.fst := by
        rw [List.map_map]; exact hjm
      rw [getElem?_setAll_of_not_mem _ _ j hnj]
      exact hwoff j hjm

/-! ### Helper lemmas: command streams -/

theorem runCommands_nil (ph : Physics) (h : Host) : runCommands ph h [] = h := rfl

theorem runCommands_cons (ph : Physics) (h : Host) (c : Command) (cs : List Command) :
    runCommands ph h (c :: cs) = runCommands ph (runCommand ph h c) cs := rfl

theorem runCommands_adv_game (ph : Physics) (h : Host) (L : List (Nat → Input)) :
    (runCommands ph h (L.map Command.advanceFrame)).game = advChain ph L h.game := by
  induction L generalizing h with
  | nil => rfl
  | cons i t ih =>
    rw [List.map_cons, runCommands_cons, advChain_cons, ih]
    rfl

theorem runCommands_adv_slots (ph : Physics) (h : Host) (L : List (Nat → Input)) :
    (runCommands ph h (L.map Command.advanceFrame)).slots = h.slots := by
  induction L generalizing h with
  | nil => rfl
  | cons i t ih =>
    rw [List.map_cons, runCommands_cons, ih]
    rfl

theorem map_fst_zipWith_writes (l0 : List PlayerState) (l1 : List Player)
    (h : l0.length = l1.length) :
    (List.zipWith (fun ps p => (p.collider, (⟨ps.x, ps.y⟩ : Vec2))) l0 l1).map Prod.fst
      = l1.map Player.collider := by
  induction l0 generalizing l1 with
  | nil =>
    cases l1 with
    | nil => rfl
    | cons b t => simp at h
  | cons a t0 ih =>
    cases l1 with
    | nil => simp at h
    | cons b t1 =>
      simp only [List.zipWith_cons_cons, List.map_cons]
      rw [ih t1 (by simpa using h)]

theorem map_capture_zipWith_restore (l0 : List BulletState) (l1 : List Bullet)
    (h : l0.length = l1.length) :
    (List.zipWith (fun bs _ => restoreBullet bs) l0 l1).map captureBullet = l0 := by
  induction l0 generalizing l1 with
  | nil => simp
  | cons a t0 ih =>
    cases l1 with
    | nil => simp at h
    | cons b t1 =>
      simp only [List.zipWith_cons_cons, List.map_cons]
      rw [ih t1 (by simpa using h)]
      rfl

theorem capturePlayer_restorePlayer (w : List Vec2) (si : PlayerState) (p : Player)
    (hpos : lookupPos w p.collider = ⟨si.x, si.y⟩) :
    capturePlayer w (restorePlayer si p) = si := by
  simp [capturePlayer, restorePlayer, hpos]

theorem State.ext_players_bullets (a b : State) (h1 : a.players = b.players)
    (h2 : a.bullets = b.bullets) : a = b := by
  cases a; cases b; cases h1; cases h2; rfl

/-! ### The claims -/

/-- **C1** (corrected).  Rollback-then-replay equals straight-line
simulation: after `Save(k)`, a sequence of `AdvanceFrame`s, then `Load(k)`
and the same `AdvanceFrame`s, the host simulation is identical to the state
the first execution reached — provided the state at the save has
pairwise-distinct, in-range player colliders (true of every state the game
builds) and the advance sequence returns the players and bullets lists to
the lengths they had at the save.  The length proviso is forced by the code:
the `Command::Load` arm restores by zipping the snapshot with the *current*
lists, so a length change in between makes the load partial (see the
counterexample). -/
theorem c1_replay_reproducibility (ph : Physics) (h0 : Host) (k : Nat)
    (L : List (Nat → Input))
    (hnodup : (h0.game.players.map Player.collider).Nodup)
    (hrange : ∀ c ∈ h0.game.players.map Player.collider, c < h0.game.actorPos.length)
    (hplen : (runCommands ph h0 (Command.save k :: L.map Command.advanceFrame)).game.players.length
      = h0.game.players.length)
    (hblen : (runCommands ph h0 (Command.save k :: L.map Command.advanceFrame)).game.bullets.length
      = h0.game.bullets.length) :
    (runCommands ph (runCommands ph h0 (Command.save k :: L.map Command.advanceFrame))
        (Command.load k :: L.map Command.advanceFrame)).game
      = (runCommands ph h0 (Command.save k :: L.map Command.advanceFrame)).game := by
  set h1 := runCommands ph h0 (Command.save k :: L.map Command.advanceFrame) with hh1
  have h1game : h1.game = advChain ph L h0.game := by
    rw [hh1, runCommands_cons, runCommands_adv_game]
    rfl
  have h1slots : h1.slots k = some (captureState h0.game) := by
    rw [hh1, runCommands_cons, runCommands_adv_slots]
    simp [runCommand]
  have hlen' : (advChain ph L h0.game).players.length = h0.game.players.length := by
    rw [← h1game]; exact hplen
  obtain ⟨s1, s2, s3, s4⟩ := advChain_props ph L h0.game hlen'
  have hrestore : loadState (captureState h0.game) h1.game = h0.game := by
    rw [h1game]
    exact loadState_captureState_restore h0.game _ s1
      (by rw [← h1game]; exact hblen) s2 s3 hnodup hrange s4
  rw [runCommands_cons]
  have hload : runCommand ph h1 (Command.load k) = { h1 with game := h0.game } := by
    show (match h1.slots k with
      | some s => { h1 with game := loadState s h1.game }
      | none => h1) = { h1 with game := h0.game }
    rw [h1slots]
    show ({ h1 with game := loadState (captureState h0.game) h1.game } : Host)
      = { h1 with game := h0.game }
    rw [hrestore]
  rw [hload, runCommands_adv_game]
  show advChain ph L h0.game = h1.game
  exact h1game.symm

/-- **C1 counterexample.**  One player holding SHOOT: `Save(0)`, one
`AdvanceFrame` (spawns a bullet), then `Load(0)` and the same
`AdvanceFrame`.  The load zips the snapshot's empty bullet list with the
one-bullet current list, so the stale bullet survives, and the replayed
frame spawns a second one: the replay ends with 2 bullets where the
straight-line run had 1, refuting the claim as stated. -/
theorem c1_counterexample :
    (runCommands trivialPhysics saveShootRun
        (Command.load 0 :: List.map Command.advanceFrame [inpShoot])).game
      ≠ saveShootRun.game := by decide

/-- **C1 witness**: the amended theorem applied to a closed instance (one
player, one empty-input frame, trivial physics). -/
theorem c1_witness :
    (runCommands trivialPhysics
        (runCommands trivialPhysics host0 (Command.save 0 :: List.map Command.advanceFrame [inpNone]))
        (Command.load 0 :: List.map Command.advanceFrame [inpNone])).game
      = (runCommands trivialPhysics host0
          (Command.save 0 :: List.map Command.advanceFrame [inpNone])).game :=
  c1_replay_reproducibility trivialPhysics host0 0 [inpNone]
    (by decide) (by decide) (by decide) (by decide)

/-- **C2** (corrected).  Save/Load round trip.  (1) `Command::Save` stores
the capture of the current simulation state into the slot; (2) `Command::Load`
of a filled slot applies the zip-restore `loadState` to the current state;
(3) restoring a snapshot and re-capturing yields the snapshot back — but only
provided the players and bullets lists at the load have the same lengths the
snapshot recorded and the current player colliders are pairwise distinct and
in range.  The length proviso is forced by the code: the load zips the
snapshot against the *current* lists, never truncating or extending them, so
"regardless of what happened in between" fails whenever either list changed
length (see the counterexample). -/
theorem c2_save_load_roundtrip (ph : Physics) :
    (∀ (h : Host) (k : Nat),
      (runCommand ph h (Command.save k)).slots k = some (captureState h.game)) ∧
    (∀ (h : Host) (k : Nat) (s : State), h.slots k = some s →
      (runCommand ph h (Command.load k)).game = loadState s h.game) ∧
    (∀ (s : State) (g' : Game),
      s.players.length = g'.players.length →
      s.bullets.length = g'.bullets.length →
      (g'.players.map Player.collider).Nodup →
      (∀ c ∈ g'.players.map Player.collider, c < g'.actorPos.length) →
      captureState (loadState s g') = s) := by
  refine ⟨?_, ?_, ?_⟩
  · intro h k
    simp [runCommand]
  · intro h k s hs
    show (match h.slots k with
      | some s => { h with game := loadState s h.game }
      | none => h).game = loadState s h.game
    rw [hs]
  · intro s g' hpl hbl hnodup hrange
    apply State.ext_players_bullets
    · show (loadState s g').players.map (capturePlayer (loadState s g').actorPos) = s.players
      simp only [loadState]
      rw [List.drop_eq_nil_of_le hpl.symm.le, List.append_nil]
      apply List.ext_getElem
      · rw [List.length_map, List.length_zipWith]
        simp [hpl]
      · intro i h1 h2
        have hig : i < g'.players.length := by rw [← hpl]; exact h2
        rw [List.getElem_map, List.getElem_zipWith]
        apply capturePlayer_restorePlayer
        have hlz : i < (List.zipWith (fun ps p => (p.collider, (⟨ps.x, ps.y⟩ : Vec2)))
            s.players g'.players).length := by
          rw [List.length_zipWith]
          omega
        have hmem := List.getElem_mem hlz
        rw [List.getElem_zipWith] at hmem
        have hnd2 : ((List.zipWith (fun ps p => (p.collider, (⟨ps.x, ps.y⟩ : Vec2)))
            s.players g'.players).map Prod.fst).Nodup := by
          rw [map_fst_zipWith_writes s.players g'.players hpl]
          exact hnodup
        have hcr : (g'.players[i]).collider < g'.actorPos.length :=
          hrange _ (List.mem_map.mpr ⟨g'.players[i], List.getElem_mem hig, rfl⟩)
        have hwq := getElem?_setAll_of_nodup _ g'.actorPos _ _ hnd2 hmem hcr
        show (lookupPos (setAll g'.actorPos _) (g'.players[i]).collider) = _
        simp only [lookupPos]
        rw [hwq]
        rfl
    · show (loadState s g').bullets.map captureBullet = s.bullets
      simp only [loadState]
      rw [List.drop_eq_nil_of_le hbl.symm.le, List.append_nil]
      exact map_capture_zipWith_restore s.bullets g'.bullets hbl

/-- **C2 counterexample.**  `Save(0)`, an `AdvanceFrame` with SHOOT held
(spawning a bullet), then `Load(0)`: the load zips the snapshot's empty
bullet list against the one-bullet current list and leaves the stale bullet
in place, so the post-load simulation does not equal what the save captured,
refuting "regardless of what happened in between". -/
theorem c2_counterexample :
    captureState (runCommands trivialPhysics host0
        [Command.save 0, Command.advanceFrame inpShoot, Command.load 0]).game
      ≠ captureState host0.game := by decide

/-- **C2 witness**: the amended round trip applied to a closed instance. -/
theorem c2_witness :
    (runCommand trivialPhysics host0 (Command.save 0)).slots 0
        = some (captureState host0.game) ∧
      captureState (loadState (captureState game0) game0) = captureState game0 :=
  ⟨(c2_save_load_roundtrip trivialPhysics).1 host0 0,
    (c2_save_load_roundtrip trivialPhysics).2.2 (captureState game0) game0
      (by decide) (by decide) (by decide) (by decide)⟩

/-- **C3** (confirmed).  Executing `Command::AdvanceFrame` steps the
simulation exactly once: its whole effect on the host is one application of
the step function `runAdvanceFrame` to the current state.  That step
function is a pure function of the collision solver, the per-player inputs
and the simulation state — its only time dependence is the embedded fixed
constant `TIMESTEP = 1/60` (`get_frame_time` is never consulted) — so two
executions from equal states with equal inputs produce equal states. -/
theorem c3_advance_deterministic (ph : Physics) :
    (∀ (h : Host) (inp : Nat → Input),
      runCommand ph h (Command.advanceFrame inp)
        = { h with game := runAdvanceFrame ph inp h.game }) ∧
    (∀ (g1 g2 : Game) (i1 i2 : Nat → Input), g1 = g2 → i1 = i2 →
      runAdvanceFrame ph i1 g1 = runAdvanceFrame ph i2 g2) :=
  ⟨fun _ _ => rfl, fun _ _ _ _ hg hi => by rw [hg, hi]⟩

/-- **C3 witness**: determinism applied at a closed state and input. -/
theorem c3_witness :
    runAdvanceFrame trivialPhysics inpNone game0
      = runAdvanceFrame trivialPhysics inpNone game0 :=
  (c3_advance_deterministic trivialPhysics).2 game0 game0 inpNone inpNone rfl rfl

/-- **C4** (confirmed).  In a `Game::update` tick, `add_local_input` is
attempted exactly when the post-poll stall counter is zero and the session is
synchronized; when it returns `Ok` the host runs `advance_frame` exactly
once, on `ReachedPredictionBarrier` it does not advance this tick (it merely
keeps the polled state), and on any other error the tick panics. -/
theorem c4_input_error_handling (ph : Physics) (sv : SessionView) (h : Host) :
    ((update ph sv h).addLocalInputCalls = 1 ↔
      ((runCommands ph h sv.pollCommands).game.framesToStall = 0 ∧
        sv.isSynchronized = true)) ∧
    ((runCommands ph h sv.pollCommands).game.framesToStall = 0 →
      sv.isSynchronized = true →
      ((sv.addLocalInput = AddInputResult.ok →
          (update ph sv h).advanceFrameCalls = 1 ∧
          (update ph sv h).host
            = some (runCommands ph (runCommands ph h sv.pollCommands) sv.advanceCommands)) ∧
        (sv.addLocalInput = AddInputResult.reachedPredictionBarrier →
          (update ph sv h).advanceFrameCalls = 0 ∧
          (update ph sv h).host = some (runCommands ph h sv.pollCommands)) ∧
        (sv.addLocalInput = AddInputResult.otherError →
          (update ph sv h).host = none))) := by
  simp only [update]
  by_cases hst : 0 < (runCommands ph h sv.pollCommands).game.framesToStall
  · rw [if_pos hst]
    refine ⟨⟨fun h1 => by simp at h1, fun hz => absurd hz.1 (by omega)⟩,
      fun hz => absurd hz (by omega)⟩
  · rw [if_neg hst]
    by_cases hsy : sv.isSynchronized = true
    · rw [if_pos hsy]
      cases hai : sv.addLocalInput with
      | ok =>
        exact ⟨⟨fun _ => ⟨by omega, hsy⟩, fun _ => rfl⟩,
          fun _ _ => ⟨fun _ => ⟨rfl, rfl⟩, fun hb => AddInputResult.noConfusion hb, fun ho => AddInputResult.noConfusion ho⟩⟩
      | reachedPredictionBarrier =>
        exact ⟨⟨fun _ => ⟨by omega, hsy⟩, fun _ => rfl⟩,
          fun _ _ => ⟨fun ho => AddInputResult.noConfusion ho, fun _ => ⟨rfl, rfl⟩, fun ho => AddInputResult.noConfusion ho⟩⟩
      | otherError =>
        exact ⟨⟨fun _ => ⟨by omega, hsy⟩, fun _ => rfl⟩,
          fun _ _ => ⟨fun ho => AddInputResult.noConfusion ho, fun hb => AddInputResult.noConfusion hb, fun _ => rfl⟩⟩
    · rw [if_neg hsy]
      exact ⟨⟨fun h1 => by simp at h1, fun hz => absurd hz.2 hsy⟩,
        fun _ hsy2 => absurd hsy2 hsy⟩

/-- **C4 witness**: a closed successful tick — input accepted, one advance. -/
theorem c4_witness :
    (update trivialPhysics svOk host0).addLocalInputCalls = 1 ∧
    (update trivialPhysics svOk host0).advanceFrameCalls = 1 ∧
    (update trivialPhysics svOk host0).host
      = some (runCommands trivialPhysics
          (runCommands trivialPhysics host0 svOk.pollCommands) svOk.advanceCommands) :=
  ⟨(c4_input_error_handling trivialPhysics svOk host0).1.mpr ⟨by decide, rfl⟩,
    (((c4_input_error_handling trivialPhysics svOk host0).2 (by decide) rfl).1 rfl).1,
    (((c4_input_error_handling trivialPhysics svOk host0).2 (by decide) rfl).1 rfl).2⟩

theorem update_stall_calls (ph : Physics) (sv : SessionView) (h : Host)
    (hpoll : sv.pollCommands = [])
    (hst : 0 < h.game.framesToStall) :
    (update ph sv h).advanceFrameCalls = 0 ∧ (update ph sv h).addLocalInputCalls = 0 := by
  simp only [update, hpoll, runCommands_nil]
  rw [if_pos hst]
  exact ⟨rfl, rfl⟩

theorem updateTick_stall (ph : Physics) (sv : SessionView) (h : Host)
    (hpoll : sv.pollCommands = [])
    (hst : 0 < h.game.framesToStall) :
    updateTick ph sv h
      = { h with game := { h.game with framesToStall := h.game.framesToStall - 1 } } := by
  simp only [updateTick, update, hpoll, runCommands_nil]
  rw [if_pos hst]
  rfl

theorem update_attempts_input (ph : Physics) (sv : SessionView) (h : Host)
    (hpoll : sv.pollCommands = [])
    (h0 : h.game.framesToStall = 0) (hsy : sv.isSynchronized = true) :
    (update ph sv h).addLocalInputCalls = 1 := by
  cases hai : sv.addLocalInput <;> simp [update, hpoll, runCommands_nil, h0, hsy, hai]

theorem updateTick_iterate_stall (ph : Physics) (sv : SessionView)
    (hpoll : sv.pollCommands = []) :
    ∀ (i : Nat) (h : Host), i ≤ h.game.framesToStall →
      Nat.iterate (updateTick ph sv) i h
        = { h with game := { h.game with framesToStall := h.game.framesToStall - i } } := by
  intro i
  induction i with
  | zero =>
    intro h _
    show h = { h with game := { h.game with framesToStall := h.game.framesToStall - 0 } }
    simp
  | succ n ih =>
    intro h hle
    rw [Function.iterate_succ_apply]
    have hst : 0 < h.game.framesToStall := by omega
    rw [updateTick_stall ph sv h hpoll hst]
    rw [ih _ (show n ≤ h.game.framesToStall - 1 by omega)]
    show ({ h with game := { h.game with
        framesToStall := h.game.framesToStall - 1 - n } } : Host) = _
    have harith : h.game.framesToStall - 1 - n = h.game.framesToStall - (n + 1) := by omega
    rw [harith]

/-- **C5** (confirmed).  `Event::TimeSync { frames_ahead }` sets the stall
counter to `frames_ahead` (and changes nothing else, see C6); then, as long
as the counter is positive, an update tick decrements it by one and performs
no simulation work (`add_local_input` and `advance_frame` both uncalled,
only the poll runs), and input submission resumes on the tick after the
counter reaches zero.  Stated for ticks whose polls return no commands, as
in the claim's scenario. -/
theorem c5_time_sync_stall (ph : Physics) (sv : SessionView)
    (hpoll : sv.pollCommands = []) :
    (∀ (h : Host) (n : Nat), runCommand ph h (Command.event (BEvent.timeSync n))
        = { h with game := { h.game with framesToStall := n } }) ∧
    (∀ (h : Host) (k : Nat), h.game.framesToStall = k + 1 →
      update ph sv h =
        { host := some { h with game := { h.game with framesToStall := k } }
          addLocalInputCalls := 0
          advanceFrameCalls := 0 }) ∧
    (∀ h : Host, h.game.framesToStall = 0 → sv.isSynchronized = true →
      (update ph sv h).addLocalInputCalls = 1) ∧
    (∀ (h : Host) (n : Nat), h.game.framesToStall = n →
      (∀ i, i < n →
        (update ph sv (Nat.iterate (updateTick ph sv) i h)).advanceFrameCalls = 0 ∧
        (update ph sv (Nat.iterate (updateTick ph sv) i h)).addLocalInputCalls = 0) ∧
      (Nat.iterate (updateTick ph sv) n h).game.framesToStall = 0 ∧
      (sv.isSynchronized = true →
        (update ph sv (Nat.iterate (updateTick ph sv) n h)).addLocalInputCalls = 1)) := by
  refine ⟨fun _ _ => rfl, ?_, fun h h0 hsy => update_attempts_input ph sv h hpoll h0 hsy, ?_⟩
  · intro h k hk
    simp only [update, hpoll, runCommands_nil]
    rw [hk, if_pos (Nat.succ_pos k)]
    simp
  · intro h n hstall
    subst hstall
    refine ⟨?_, ?_, ?_⟩
    · intro i hi
      rw [updateTick_iterate_stall ph sv hpoll i h (by omega)]
      exact update_stall_calls ph sv _ hpoll (show 0 < h.game.framesToStall - i by omega)
    · rw [updateTick_iterate_stall ph sv hpoll _ h (Nat.le_refl _)]
      show h.game.framesToStall - h.game.framesToStall = 0
      omega
    · intro hsy
      rw [updateTick_iterate_stall ph sv hpoll _ h (Nat.le_refl _)]
      exact update_attempts_input ph sv _ hpoll
        (show h.game.framesToStall - h.game.framesToStall = 0 by omega) hsy

/-- **C5 witness**: a host with two stall frames pending, idle polls: both
stall ticks advance nothing, the counter reaches zero, and the tick after
attempts input again. -/
theorem c5_witness :
    (Nat.iterate (updateTick trivialPhysics svOk) 2 hostStall2).game.framesToStall = 0 ∧
    (update trivialPhysics svOk
        (Nat.iterate (updateTick trivialPhysics svOk) 0 hostStall2)).advanceFrameCalls = 0 ∧
    (update trivialPhysics svOk
        (Nat.iterate (updateTick trivialPhysics svOk) 2 hostStall2)).addLocalInputCalls = 1 :=
  ⟨((c5_time_sync_stall trivialPhysics svOk rfl).2.2.2 hostStall2 2 rfl).2.1,
    (((c5_time_sync_stall trivialPhysics svOk rfl).2.2.2 hostStall2 2 rfl).1 0 (by decide)).1,
    ((c5_time_sync_stall trivialPhysics svOk rfl).2.2.2 hostStall2 2 rfl).2.2 rfl⟩

/-- **C6** (confirmed).  No `Command::Event` arm mutates the simulation:
players, bullets, collision world and save slots are untouched by every
event, every non-`TimeSync` event is a complete no-op on the host, and
`TimeSync { frames_ahead }` writes exactly the `frames_to_stall` counter. -/
theorem c6_events_pure (ph : Physics) (h : Host) (e : BEvent) :
    (runCommand ph h (Command.event e)).game.players = h.game.players ∧
    (runCommand ph h (Command.event e)).game.bullets = h.game.bullets ∧
    (runCommand ph h (Command.event e)).game.actorPos = h.game.actorPos ∧
    (runCommand ph h (Command.event e)).slots = h.slots ∧
    ((∀ n, e ≠ BEvent.timeSync n) → runCommand ph h (Command.event e) = h) ∧
    (∀ n, runCommand ph h (Command.event (BEvent.timeSync n))
      = { h with game := { h.game with framesToStall := n } }) := by
  cases e with
  | timeSync m =>
    exact ⟨rfl, rfl, rfl, rfl, fun hn => absurd rfl (hn m), fun _ => rfl⟩
  | connected p => exact ⟨rfl, rfl, rfl, rfl, fun _ => rfl, fun _ => rfl⟩
  | synchronizing p c t => exact ⟨rfl, rfl, rfl, rfl, fun _ => rfl, fun _ => rfl⟩
  | synchronized p => exact ⟨rfl, rfl, rfl, rfl, fun _ => rfl, fun _ => rfl⟩
  | running => exact ⟨rfl, rfl, rfl, rfl, fun _ => rfl, fun _ => rfl⟩
  | disconnected p => exact ⟨rfl, rfl, rfl, rfl, fun _ => rfl, fun _ => rfl⟩
  | connectionInterrupted p d => exact ⟨rfl, rfl, rfl, rfl, fun _ => rfl, fun _ => rfl⟩
  | connectionResumed p => exact ⟨rfl, rfl, rfl, rfl, fun _ => rfl, fun _ => rfl⟩

/-- **C6 witness**: the non-`TimeSync` no-op clause applied to `Running`. -/
theorem c6_witness :
    runCommand trivialPhysics host0 (Command.event BEvent.running) = host0 :=
  (c6_events_pure trivialPhysics host0 BEvent.running).2.2.2.2.1
    (fun _ hh => BEvent.noConfusion hh)

/-- **C7** (confirmed).  `Game::run_commands` is a single in-order traversal
of the command stream dispatching each command exactly once to `runCommand`:
it does nothing on the empty stream, executes a singleton stream as exactly
one `runCommand`, and executing a concatenated stream equals executing the
first part and then the second. -/
theorem c7_commands_in_order (ph : Physics) :
    (∀ (h : Host) (l1 l2 : List Command),
      runCommands ph h (l1 ++ l2) = runCommands ph (runCommands ph h l1) l2) ∧
    (∀ (h : Host) (c : Command), runCommands ph h [c] = runCommand ph h c) ∧
    (∀ h : Host, runCommands ph h [] = h) := by
  refine ⟨fun h l1 l2 => ?_, fun _ _ => rfl, fun _ => rfl⟩
  simp [runCommands, List.foldl_append]

/-- **C8** (confirmed).  `PlayerStateBits` round trip: writing `x < 1024`,
`y < 1024`, `facing` and `shooting` into a zeroed 3-byte bitfield in the
order `World::sync_state` encodes a `Move` message, then reading the four
accessors back — as the receive side of `sync_state` does — returns exactly
the original values. -/
theorem c8_bitfield_roundtrip (px py : Nat) (f s : Bool)
    (hx : px < 1024) (hy : py < 1024) :
    PlayerStateBits.decodeMove (PlayerStateBits.encodeMove px py f s) = (px, py, f, s) := by
  unfold PlayerStateBits.decodeMove PlayerStateBits.encodeMove
  unfold PlayerStateBits.x PlayerStateBits.y PlayerStateBits.facing PlayerStateBits.shooting
  unfold PlayerStateBits.set_x PlayerStateBits.set_y
  unfold PlayerStateBits.set_facing PlayerStateBits.set_shooting
  cases f <;> cases s <;>
    simp only [Bool.false_eq_true, if_neg, if_pos, Prod.mk.injEq, decide_eq_true_eq,
      decide_eq_false_iff_not, if_true, if_false] <;>
    refine ⟨by omega, by omega, ?_, ?_⟩ <;> omega

/-- **C8 witness**: the round trip at the values of the repository's own
`test_bitfield` (345, 567, facing, not shooting). -/
theorem c8_witness :
    PlayerStateBits.decodeMove (PlayerStateBits.encodeMove 345 567 true false)
      = (345, 567, true, false) :=
  c8_bitfield_roundtrip 345 567 true false (by decide) (by decide)

/-- **C9** (confirmed).  After any `Command::AdvanceFrame` every remaining
player has health > 0 (`retain(|player| player.health > 0)` is the last
thing the arm does), and no other command changes the number of players:
`Save` and events leave the list untouched and `Load` zip-overwrites it in
place without changing its length. -/
theorem c9_living_players (ph : Physics) :
    (∀ (inp : Nat → Input) (g : Game) (p : Player),
      p ∈ (runAdvanceFrame ph inp g).players → 0 < p.health) ∧
    (∀ (h : Host) (c : Command), (∀ inp, c ≠ Command.advanceFrame inp) →
      (runCommand ph h c).game.players.length = h.game.players.length) := by
  constructor
  · intro inp g p hp
    simp only [runAdvanceFrame] at hp
    exact of_decide_eq_true (List.mem_filter.mp hp).2
  · intro h c hc
    cases c with
    | save k => rfl
    | load k =>
      show (match h.slots k with
        | some s => { h with game := loadState s h.game }
        | none => h).game.players.length = h.game.players.length
      cases hs : h.slots k with
      | none => rfl
      | some s =>
        show (loadState s h.game).players.length = h.game.players.length
        simp only [loadState, List.length_append, List.length_zipWith, List.length_drop]
        omega
    | advanceFrame inp => exact absurd rfl (hc inp)
    | event e => cases e <;> rfl

/-- **C9 witness**: the surviving player of a closed advanced frame has
positive health, and a `Save` command leaves the player count unchanged. -/
theorem c9_witness :
    0 < (((runAdvanceFrame trivialPhysics inpNone game0).players.getD 0 player0)).health ∧
    (runCommand trivialPhysics host0 (Command.save 0)).game.players.length
      = host0.game.players.length :=
  ⟨(c9_living_players trivialPhysics).1 inpNone game0 _ (by decide),
    (c9_living_players trivialPhysics).2 host0 (Command.save 0)
      (fun _ hh => Command.noConfusion hh)⟩

/-- **C10** (confirmed).  Fire-rate control: after any `Command::AdvanceFrame`
every player's `gun_clock` is below `BULLET_INTERVAL_TICKS = 10`; within a
frame, a player's loop iteration appends a bullet if and only if its input
contains SHOOT and its `gun_clock` was 0 at the start of the iteration
(appending exactly one); a SHOOT frame advances the clock to
`(gun_clock + 1) % 10` and a non-SHOOT frame resets it to 0 — so holding
SHOOT spawns at most one bullet per 10 consecutive frames. -/
theorem c10_fire_rate (ph : Physics) :
    (∀ (inp : Nat → Input) (g : Game) (p : Player),
      p ∈ (runAdvanceFrame ph inp g).players → p.gunClock < BULLET_INTERVAL_TICKS) ∧
    (∀ (inp : Nat → Input) (w : List Vec2) (bs : List Bullet) (p : Player),
      ((∃ b, (stepPlayer ph inp w bs p).2.2 = bs ++ [b]) ↔
        ((inp p.backrollPlayerHandle).shoot = true ∧ p.gunClock = 0)) ∧
      (¬((inp p.backrollPlayerHandle).shoot = true ∧ p.gunClock = 0) →
        (stepPlayer ph inp w bs p).2.2 = bs)) ∧
    (∀ (inp : Nat → Input) (w : List Vec2) (bs : List Bullet) (p : Player),
      ((inp p.backrollPlayerHandle).shoot = false →
        ((stepPlayer ph inp w bs p).1).gunClock = 0) ∧
      ((inp p.backrollPlayerHandle).shoot = true →
        ((stepPlayer ph inp w bs p).1).gunClock
          = (p.gunClock + 1) % BULLET_INTERVAL_TICKS)) := by
  have hns : ∀ (inp : Nat → Input) (w : List Vec2) (bs : List Bullet) (p : Player),
      ¬((inp p.backrollPlayerHandle).shoot = true ∧ p.gunClock = 0) →
      (stepPlayer ph inp w bs p).2.2 = bs := by
    intro inp w bs p hc
    cases hsh : (inp p.backrollPlayerHandle).shoot with
    | false => simp [stepPlayer, hsh]
    | true =>
      rw [hsh] at hc
      have hgc : p.gunClock ≠ 0 := fun hz => hc ⟨rfl, hz⟩
      simp [stepPlayer, hsh, hgc]
  refine ⟨?_, ?_, ?_⟩
  · intro inp g p hp
    simp only [runAdvanceFrame] at hp
    have hp2 := (List.mem_filter.mp hp).1
    have hmap := updateBullets_strip ph
      (stepPlayers ph inp g.players g.actorPos g.bullets).2.1
      (moveBullets (stepPlayers ph inp g.players g.actorPos g.bullets).2.2)
      (stepPlayers ph inp g.players g.actorPos g.bullets).1
    have hmem : stripHealth p ∈
        ((stepPlayers ph inp g.players g.actorPos g.bullets).1).map stripHealth := by
      rw [← hmap]
      exact List.mem_map_of_mem stripHealth hp2
    obtain ⟨q, hq, hqe⟩ := List.mem_map.mp hmem
    have hgc : p.gunClock = q.gunClock := by
      have hge := congrArg Player.gunClock hqe
      simpa [stripHealth] using hge.symm
    rw [hgc]
    exact stepPlayers_gunClock ph inp g.players g.actorPos g.bullets q hq
  · intro inp w bs p
    refine ⟨⟨?_, ?_⟩, hns inp w bs p⟩
    · rintro ⟨b, hb⟩
      by_cases hc : (inp p.backrollPlayerHandle).shoot = true ∧ p.gunClock = 0
      · exact hc
      · rw [hns inp w bs p hc] at hb
        have hlb := congrArg List.length hb
        simp at hlb
    · rintro ⟨hsh, hgc⟩
      refine ⟨spawnBullet (lookupPos w p.collider) p.facingRight, ?_⟩
      simp [stepPlayer, hsh, hgc]
  · intro inp w bs p
    constructor
    · intro hsh
      simp [stepPlayer, hsh]
    · intro hsh
      simp [stepPlayer, hsh]

/-- **C10 witness**: a closed SHOOT frame — the clock stays below 10,
advances to `(0+1) % 10`, and exactly one bullet is appended. -/
theorem c10_witness :
    ((runAdvanceFrame trivialPhysics inpShoot game0).players.getD 0 player0).gunClock
        < BULLET_INTERVAL_TICKS ∧
    ((stepPlayer trivialPhysics inpShoot [⟨0, 0⟩] [] player0).1).gunClock
        = (player0.gunClock + 1) % BULLET_INTERVAL_TICKS ∧
    (∃ b, (stepPlayer trivialPhysics inpShoot [⟨0, 0⟩] [] player0).2.2 = [] ++ [b]) :=
  ⟨(c10_fire_rate trivialPhysics).1 inpShoot game0 _ (by decide),
    ((c10_fire_rate trivialPhysics).2.2 inpShoot [⟨0, 0⟩] [] player0).2 (by decide),
    ((c10_fire_rate trivialPhysics).2.1 inpShoot [⟨0, 0⟩] [] player0).1.mpr
      ⟨by decide, rfl⟩⟩

end Fish
